import Mathlib

/-!
Verification of the wikiplay trivia game's two specifiable cores:

* the spin-and-throw resolver of `src/components/Dartboard.tsx`
  (`animate`, `handleThrow`),
* the audio decode and playback pipeline of `src/components/FactModal.tsx`
  (`decode`, `decodeAudioData`, `playAudio`, `stopAudio`,
  `handleOptionClick`),
* the scoreboard update of `src/App.tsx` (`handleQuizAnswer`).

JavaScript numbers are modelled as exact rationals (ℚ); JS `%` is the
truncated remainder, modelled by `jsMod` below. Byte arrays are lists of
naturals taken mod 256 where the typed array would coerce.
-/

/-- Truncation toward zero on ℚ, the rounding used by the JS `%` operator. -/
def ratTrunc (q : ℚ) : ℤ := if 0 ≤ q then ⌊q⌋ else ⌈q⌉

/-- JS remainder `a % b` for finite `b ≠ 0`: `a - b * trunc (a / b)`.
The result carries the sign of the dividend and has magnitude `< |b|`. -/
def jsMod (a b : ℚ) : ℚ := a - b * (ratTrunc (a / b) : ℚ)

theorem ratTrunc_of_nonneg {q : ℚ} (h : 0 ≤ q) : ratTrunc q = ⌊q⌋ := if_pos h

theorem ratTrunc_of_neg {q : ℚ} (h : q < 0) : ratTrunc q = ⌈q⌉ :=
  if_neg (by simpa using h)

theorem jsMod_nonneg {a b : ℚ} (ha : 0 ≤ a) (hb : 0 < b) : 0 ≤ jsMod a b := by
  have hq : 0 ≤ a / b := div_nonneg ha hb.le
  rw [jsMod, ratTrunc_of_nonneg hq]
  have h1 : (⌊a / b⌋ : ℚ) ≤ a / b := Int.floor_le _
  have h2 : b * (⌊a / b⌋ : ℚ) ≤ b * (a / b) :=
    mul_le_mul_of_nonneg_left h1 hb.le
  have h3 : b * (a / b) = a := mul_div_cancel₀ a hb.ne'
  linarith

theorem jsMod_lt {a b : ℚ} (hb : 0 < b) : jsMod a b < b := by
  rw [jsMod]
  rcases le_or_lt 0 (a / b) with hq | hq
  · rw [ratTrunc_of_nonneg hq]
    have h1 : a / b < (⌊a / b⌋ : ℚ) + 1 := Int.lt_floor_add_one _
    have h2 : b * (a / b) < b * ((⌊a / b⌋ : ℚ) + 1) :=
      mul_lt_mul_of_pos_left h1 hb
    have h3 : b * (a / b) = a := mul_div_cancel₀ a hb.ne'
    nlinarith
  · rw [ratTrunc_of_neg hq]
    have h1 : a / b ≤ (⌈a / b⌉ : ℚ) := Int.le_ceil _
    have h2 : b * (a / b) ≤ b * (⌈a / b⌉ : ℚ) :=
      mul_le_mul_of_nonneg_left h1 hb.le
    have h3 : b * (a / b) = a := mul_div_cancel₀ a hb.ne'
    linarith

theorem jsMod_neg_lower {a b : ℚ} (hb : 0 < b) : -b < jsMod a b := by
  rw [jsMod]
  rcases le_or_lt 0 (a / b) with hq | hq
  · rw [ratTrunc_of_nonneg hq]
    have h1 : (⌊a / b⌋ : ℚ) ≤ a / b := Int.floor_le _
    have h2 : b * (⌊a / b⌋ : ℚ) ≤ b * (a / b) :=
      mul_le_mul_of_nonneg_left h1 hb.le
    have h3 : b * (a / b) = a := mul_div_cancel₀ a hb.ne'
    linarith
  · rw [ratTrunc_of_neg hq]
    have h1 : (⌈a / b⌉ : ℚ) < a / b + 1 := by
      have := Int.ceil_lt_add_one (a / b)
      exact_mod_cast this
    have h2 : b * (⌈a / b⌉ : ℚ) < b * (a / b + 1) :=
      mul_lt_mul_of_pos_left h1 hb
    have h3 : b * (a / b) = a := mul_div_cancel₀ a hb.ne'
    nlinarith

/-! ## Spin-and-throw resolver (src/components/Dartboard.tsx) -/

/-- `CATEGORIES = Object.values(Category)` from `src/types.js`, the single
source of truth for slice order (used both to render and to resolve). -/
def CATEGORIES : List String :=
  ["Geschiedenis", "Wetenschap", "Natuur", "Sport",
   "Kunst", "Technologie", "Geografie", "Entertainment"]

/-- The normalization pattern `let e = x % 360; if (e < 0) e += 360;`
used for both `hitAngleDeg` and `effectiveAngle` in `handleThrow`. -/
def normDeg (x : ℚ) : ℚ :=
  let e := jsMod x 360
  if e < 0 then e + 360 else e

/-- `effectiveAngle` of `handleThrow`:
`(hitAngleDeg - rotation) % 360`, then `+ 360` if negative. -/
def effectiveAngle (hitAngleDeg rotation : ℚ) : ℚ :=
  normDeg (hitAngleDeg - rotation)

/-- `segmentSize = 360 / CATEGORIES.length` in `handleThrow`. -/
def segmentSize : ℚ := 360 / (CATEGORIES.length : ℚ)

/-- `index = Math.floor(effectiveAngle / segmentSize)` in `handleThrow`. -/
def throwIndex (hitAngleDeg rotation : ℚ) : ℤ :=
  ⌊effectiveAngle hitAngleDeg rotation / segmentSize⌋

/-- JS array indexing `CATEGORIES[index]` with an integer index:
`undefined` (`none`) when out of range. -/
def listAt (l : List String) (i : ℤ) : Option String :=
  if 0 ≤ i then l.get? i.toNat else none

/-- `hitCategory = CATEGORIES[index]` in `handleThrow`. -/
def hitCategory (hitAngleDeg rotation : ℚ) : Option String :=
  listAt CATEGORIES (throwIndex hitAngleDeg rotation)

theorem normDeg_nonneg (x : ℚ) : 0 ≤ normDeg x := by
  rw [normDeg]
  rcases lt_or_le (jsMod x 360) 0 with h | h
  · rw [if_pos h]
    have := jsMod_neg_lower (a := x) (b := 360) (by norm_num)
    linarith
  · rw [if_neg (not_lt.mpr h)]
    exact h

theorem normDeg_lt (x : ℚ) : normDeg x < 360 := by
  rw [normDeg]
  rcases lt_or_le (jsMod x 360) 0 with h | h
  · rw [if_pos h]; linarith
  · rw [if_neg (not_lt.mpr h)]
    exact jsMod_lt (by norm_num)

theorem segmentSize_eq : segmentSize = 45 := by
  rw [segmentSize]; norm_num [CATEGORIES]

theorem throwIndex_nonneg (h r : ℚ) : 0 ≤ throwIndex h r := by
  rw [throwIndex, segmentSize_eq]
  have h0 : (0 : ℚ) ≤ effectiveAngle h r := normDeg_nonneg _
  exact Int.floor_nonneg.mpr (by positivity)

theorem throwIndex_le (h r : ℚ) : throwIndex h r ≤ 7 := by
  rw [throwIndex, segmentSize_eq]
  have h1 : effectiveAngle h r < 360 := normDeg_lt _
  have h2 : effectiveAngle h r / 45 < 8 := by
    rw [div_lt_iff₀ (by norm_num : (0:ℚ) < 45)]; linarith
  have h3 : ⌊effectiveAngle h r / 45⌋ < 8 := Int.floor_lt.mpr (by exact_mod_cast h2)
  omega

/-- Under exact rational arithmetic the computed slice index lies in
`[0, 7]` for every rotation and hit angle: the two-step normalization
puts `effectiveAngle` into `[0, 360)`. This bound is a property of the
idealized arithmetic only — the binary64 model below shows the actual
float program can leave it (the code has no clamp). -/
theorem resolveThrow_index_in_range (hitAngleDeg rotation : ℚ) :
    0 ≤ throwIndex hitAngleDeg rotation ∧
    throwIndex hitAngleDeg rotation ≤ 7 ∧
    (hitCategory hitAngleDeg rotation).isSome = true := by
  refine ⟨throwIndex_nonneg _ _, throwIndex_le _ _, ?_⟩
  have h0 := throwIndex_nonneg hitAngleDeg rotation
  have h7 := throwIndex_le hitAngleDeg rotation
  rw [hitCategory, listAt, if_pos h0]
  have hlen : CATEGORIES.length = 8 := by rfl
  have hlt : (throwIndex hitAngleDeg rotation).toNat < CATEGORIES.length := by
    rw [hlen]; omega
  rw [List.get?_eq_get hlt]
  rfl

/-- The normalized value is the mathematical residue: it differs from the
input by an integer multiple of 360. -/
theorem normDeg_sub_int (x : ℚ) : ∃ k : ℤ, x - normDeg x = 360 * k := by
  rw [normDeg]
  rcases lt_or_le (jsMod x 360) 0 with h | h
  · rw [if_pos h]
    exact ⟨ratTrunc (x / 360) - 1, by rw [jsMod]; push_cast; ring⟩

  · rw [if_neg (not_lt.mpr h)]
    exact ⟨ratTrunc (x / 360), by rw [jsMod]; ring⟩

/-- The two-step JS normalization (`% 360`, then `+ 360` if negative)
computes exactly the floor-based mathematical `mod` into `[0, 360)`. -/
theorem normDeg_eq_mathMod (x : ℚ) :
    normDeg x = x - 360 * (⌊x / 360⌋ : ℚ) := by
  obtain ⟨k, hk⟩ := normDeg_sub_int x
  have h0 : 0 ≤ normDeg x := normDeg_nonneg x
  have h1 : normDeg x < 360 := normDeg_lt x
  have hx : x / 360 = (k : ℚ) + normDeg x / 360 := by
    field_simp
    linarith
  have hfloor : ⌊x / 360⌋ = k := by
    rw [Int.floor_eq_iff, hx]
    constructor
    · have : 0 ≤ normDeg x / 360 := by positivity
      linarith
    · have : normDeg x / 360 < 1 := by
        rw [div_lt_one (by norm_num : (0:ℚ) < 360)]
        exact h1
      linarith
  rw [hfloor]
  linarith

/-- Claim C7: the resolver computes
`effectiveAngle = (hitAngleDeg − rotation) mod 360` normalized into
`[0, 360)` and `index = floor(effectiveAngle / 45)`; for rotation = 90 and
hitAngleDeg = 90 it resolves `effectiveAngle = 0` and index 0's category
(Geschiedenis), and for rotation = 0 and hitAngleDeg = 359.9 it resolves
index 7 (Entertainment), not index 0 or an out-of-range index. -/
theorem resolveThrow_effective_angle (hitAngleDeg rotation : ℚ) :
    effectiveAngle hitAngleDeg rotation
      = (hitAngleDeg - rotation)
        - 360 * (⌊(hitAngleDeg - rotation) / 360⌋ : ℚ) ∧
    0 ≤ effectiveAngle hitAngleDeg rotation ∧
    effectiveAngle hitAngleDeg rotation < 360 ∧
    throwIndex hitAngleDeg rotation
      = ⌊effectiveAngle hitAngleDeg rotation / 45⌋ ∧
    effectiveAngle 90 90 = 0 ∧
    throwIndex 90 90 = 0 ∧
    hitCategory 90 90 = some "Geschiedenis" ∧
    throwIndex (3599/10) 0 = 7 ∧
    hitCategory (3599/10) 0 = some "Entertainment" := by
  have e1 : effectiveAngle 90 90 = 0 := by
    rw [effectiveAngle, normDeg_eq_mathMod]
    norm_num
  have t1 : throwIndex 90 90 = 0 := by
    rw [throwIndex, segmentSize_eq, e1]
    norm_num
  have c1 : hitCategory 90 90 = some "Geschiedenis" := by
    rw [hitCategory, t1]
    rfl
  have e2 : effectiveAngle (3599/10) 0 = 3599/10 := by
    rw [effectiveAngle, normDeg_eq_mathMod]
    norm_num
  have t2 : throwIndex (3599/10) 0 = 7 := by
    rw [throwIndex, segmentSize_eq, e2]
    norm_num
  have c2 : hitCategory (3599/10) 0 = some "Entertainment" := by
    rw [hitCategory, t2]
    rfl
  exact ⟨normDeg_eq_mathMod _, normDeg_nonneg _, normDeg_lt _,
    by rw [throwIndex, segmentSize_eq], e1, t1, c1, t2, c2⟩

/-! ### Binary64 rounding model for the angle normalization

JS numbers are IEEE binary64 doubles. `handleThrow` performs its
arithmetic in doubles, so the subtraction, the `+ 360` correction and
the division by 45 each round their exact result to the nearest
representable double (ties to even); `%` (fmod) of representable
operands is exact and never rounds. The model below captures that
rounding for values in the normal range (overflow and subnormals do not
occur at the magnitudes involved). -/

/-- Round `q` to the nearest integer multiple of the unit `u`, ties to
even — the IEEE round-to-nearest-even rule at granularity `u`. -/
def roundNearestEven (u q : ℚ) : ℚ :=
  if q / u - (⌊q / u⌋ : ℚ) < 1/2 then (⌊q / u⌋ : ℚ) * u
  else if 1/2 < q / u - (⌊q / u⌋ : ℚ) then ((⌊q / u⌋ : ℚ) + 1) * u
  else if ⌊q / u⌋ % 2 = 0 then (⌊q / u⌋ : ℚ) * u
  else ((⌊q / u⌋ : ℚ) + 1) * u

/-- The spacing of consecutive binary64 doubles at magnitude `|q|`
(normal range). -/
def ulp64 (q : ℚ) : ℚ := (2 : ℚ) ^ (Int.log 2 |q| - 52)

/-- Binary64 rounding of an exact rational result to the nearest
representable double, ties to even. -/
def fl64 (q : ℚ) : ℚ := if q = 0 then 0 else roundNearestEven (ulp64 q) q

theorem fl64_exact (q : ℚ) (hq : q ≠ 0) (n : ℤ)
    (h : q = (n : ℚ) * ulp64 q) : fl64 q = q := by
  have hu : ulp64 q ≠ 0 := by
    rw [ulp64]
    exact zpow_ne_zero _ (by norm_num)
  have hqu : q / ulp64 q = (n : ℚ) := by
    nth_rewrite 1 [h]
    rw [mul_div_assoc, div_self hu, mul_one]
  rw [fl64, if_neg hq, roundNearestEven, hqu, Int.floor_intCast,
    if_pos (by rw [sub_self]; norm_num)]
  exact h.symm

/-- Characterization of the binary exponent through the two-sided power
bound. -/
theorem int_log_eq (r : ℚ) (hr : 0 < r) (e : ℤ)
    (h1 : (2 : ℚ) ^ e ≤ r) (h2 : r < (2 : ℚ) ^ (e + 1)) :
    Int.log 2 r = e := by
  have l1 : e ≤ Int.log 2 r := by
    rw [← Int.zpow_le_iff_le_log (by norm_num) hr]
    exact_mod_cast h1
  have l2 : Int.log 2 r < e + 1 := by
    rw [← Int.lt_zpow_iff_log_lt (by norm_num) hr]
    exact_mod_cast h2
  omega

/-- The `effectiveAngle` computation of `handleThrow` under binary64
semantics: the subtraction rounds, the JS `%` is exact on representable
operands, and the `+ 360` correction rounds again. -/
def effectiveAngleFl (hitAngleDeg rotation : ℚ) : ℚ :=
  if jsMod (fl64 (hitAngleDeg - rotation)) 360 < 0 then
    fl64 (jsMod (fl64 (hitAngleDeg - rotation)) 360 + 360)
  else jsMod (fl64 (hitAngleDeg - rotation)) 360

/-- The slice index of `handleThrow` under binary64 semantics: the
division by `segmentSize = 45` rounds; `Math.floor` is exact. -/
def throwIndexFl (hitAngleDeg rotation : ℚ) : ℤ :=
  ⌊fl64 (effectiveAngleFl hitAngleDeg rotation / 45)⌋

theorem fl64_neg_tiny :
    fl64 (-(2 ^ (-(50 : ℤ))) : ℚ) = -(2 ^ (-(50 : ℤ))) := by
  apply fl64_exact _ (by norm_num) (-(2 ^ 52))
  have habs : |(-(2 ^ (-(50 : ℤ))) : ℚ)| = 2 ^ (-(50 : ℤ)) := by
    rw [abs_neg, abs_of_pos]
    positivity
  have hlog : Int.log 2 ((2 : ℚ) ^ (-(50 : ℤ))) = -50 :=
    int_log_eq _ (by positivity) _ (le_refl _) (by norm_num)
  rw [ulp64, habs, hlog]
  push_cast
  norm_num

theorem fl64_eight : fl64 (8 : ℚ) = 8 := by
  apply fl64_exact _ (by norm_num) (2 ^ 52)
  have hlog : Int.log 2 |(8 : ℚ)| = 3 := by
    rw [abs_of_pos (by norm_num : (0:ℚ) < 8)]
    exact int_log_eq _ (by norm_num) 3 (by norm_num) (by norm_num)
  rw [ulp64, hlog]
  push_cast
  norm_num

/-- Rounding the exact value `360 - 2⁻⁵⁰` to binary64 gives exactly 360:
the value lies within half an ulp (`2⁻⁴⁵`) of 360. -/
theorem fl64_edge : fl64 ((360 : ℚ) - 2 ^ (-(50 : ℤ))) = 360 := by
  have hpos : (0 : ℚ) < 360 - 2 ^ (-(50 : ℤ)) := by norm_num
  have hlog : Int.log 2 |(360 : ℚ) - 2 ^ (-(50 : ℤ))| = 8 := by
    rw [abs_of_pos hpos]
    exact int_log_eq _ hpos 8 (by norm_num) (by norm_num)
  have hulp : ulp64 ((360 : ℚ) - 2 ^ (-(50 : ℤ))) = 2 ^ (-(44 : ℤ)) := by
    rw [ulp64, hlog]
    norm_num
  have hfloor : ⌊((360 : ℚ) - 2 ^ (-(50 : ℤ))) / 2 ^ (-(44 : ℤ))⌋
      = 6333186975989759 := by
    norm_num
  rw [fl64, if_neg (by norm_num), hulp, roundNearestEven, hfloor]
  rw [if_neg (by norm_num), if_pos (by norm_num)]
  norm_num

theorem jsMod_neg_tiny :
    jsMod (-(2 ^ (-(50 : ℤ))) : ℚ) 360 = -(2 ^ (-(50 : ℤ))) := by
  have hceil : ⌈(-(2 ^ (-(50 : ℤ))) : ℚ) / 360⌉ = 0 := by norm_num
  rw [jsMod, ratTrunc_of_neg (by norm_num), hceil]
  norm_num

/-- Claim C1, the code's failure at the failing input: `handleThrow` runs
in binary64 and contains no clamp. Rotation 8 is reachable (rotation
advances in exact steps of 8), and a hit angle one ulp below 8 — a valid
binary64 hit angle — gives `(hitAngleDeg - rotation) % 360 = -2⁻⁵⁰`,
whose `+ 360` correction rounds to exactly 360; the index becomes
`floor(360 / 45) = 8` and `CATEGORIES[8]` is `undefined`, violating the
claimed bound into `[0, 7]`. Exact arithmetic (last conjunct) would give
index 7 — the discrepancy is exactly the floating-point edge the spec's
clamp was meant to guard. -/
theorem throwIndex_float_edge :
    effectiveAngleFl (8 - 2 ^ (-(50 : ℤ))) 8 = 360 ∧
    throwIndexFl (8 - 2 ^ (-(50 : ℤ))) 8 = 8 ∧
    listAt CATEGORIES 8 = none ∧
    throwIndex (8 - 2 ^ (-(50 : ℤ))) 8 = 7 := by
  have hd : (8 : ℚ) - 2 ^ (-(50 : ℤ)) - 8 = -(2 ^ (-(50 : ℤ))) := by ring
  have heff : effectiveAngleFl (8 - 2 ^ (-(50 : ℤ))) 8 = 360 := by
    rw [effectiveAngleFl, hd, fl64_neg_tiny, jsMod_neg_tiny,
      if_pos (by norm_num)]
    rw [show (-(2 ^ (-(50 : ℤ))) : ℚ) + 360 = 360 - 2 ^ (-(50 : ℤ))
      from by ring]
    exact fl64_edge
  refine ⟨heff, ?_, rfl, ?_⟩
  · rw [throwIndexFl, heff,
      show (360 : ℚ) / 45 = 8 from by norm_num, fl64_eight]
    norm_num
  · rw [throwIndex, segmentSize_eq, effectiveAngle, hd, normDeg_eq_mathMod]
    norm_num

/-! ## Spin animation (src/components/Dartboard.tsx, `animate`) -/

/-- `GameState` from `src/types.js`. -/
inductive GameState where
  | IDLE
  | SPINNING
  | THROWN
  | FETCHING
  | SHOWING_CONTENT
deriving DecidableEq

/-- The Dartboard component's state relevant to the spin animation:
`gameState`, the `rotation` state, and the `lastTimeRef` / `speedRef`
refs. -/
structure BoardState where
  gameState : GameState
  rotation : ℚ
  lastTime : ℚ
  speed : ℚ
deriving DecidableEq

/-- The body of `animate`: when `lastTimeRef.current !== 0`, the rotation
becomes `(prev + speedRef.current) % 360`; in every case
`lastTimeRef.current = time` is recorded. -/
def animateTick (s : BoardState) (time : ℚ) : BoardState :=
  { s with
    rotation :=
      if s.lastTime ≠ 0 then jsMod (s.rotation + s.speed) 360
      else s.rotation,
    lastTime := time }

/-- One animation frame. `animate` runs only while the game state is
SPINNING: the gameState effect cancels the pending frame on leaving
SPINNING and `animate` re-schedules itself only while SPINNING, so outside
SPINNING the frame callback never fires and the state is unchanged. -/
def frameStep (s : BoardState) (time : ℚ) : BoardState :=
  if s.gameState = GameState.SPINNING then animateTick s time else s

/-- Entering the SPINNING state (the gameState effect):
`speedRef.current = 8; lastTimeRef.current = 0;`. -/
def startSpinning (s : BoardState) : BoardState :=
  { s with gameState := GameState.SPINNING, speed := 8, lastTime := 0 }

/-- The board state right after the user starts a spin from the initial
idle state. -/
def spinStart : BoardState :=
  startSpinning
    { gameState := GameState.IDLE, rotation := 0, lastTime := 0, speed := 0 }

/-- Counterexample to claim C8 as stated: the first animation frame after
entering SPINNING (where `lastTimeRef.current === 0`) only records the
timestamp and does not replace rotation by `(rotation + 8) % 360`. -/
theorem tick_first_frame_no_increment :
    (frameStep spinStart 5).rotation = 0 ∧
    jsMod (spinStart.rotation + spinStart.speed) 360 = 8 ∧
    (frameStep spinStart 5).rotation
      ≠ jsMod (spinStart.rotation + spinStart.speed) 360 := by
  have h1 : (frameStep spinStart 5).rotation = 0 := by
    rw [frameStep, spinStart, startSpinning]
    norm_num [animateTick]
  have h2 : jsMod (spinStart.rotation + spinStart.speed) 360 = 8 := by
    show jsMod (0 + 8) 360 = 8
    rw [jsMod, ratTrunc_of_nonneg (by norm_num)]
    norm_num
  exact ⟨h1, h2, by rw [h1, h2]; norm_num⟩

/-- Claim C8 (amended): every animation-frame tick while spinning whose
timestamp ref is already initialized (`lastTime ≠ 0`) replaces rotation by
`(rotation + speed) % 360`; the first tick after entering SPINNING leaves
rotation unchanged; every tick preserves `rotation ∈ [0, 360)` (given the
non-negative speed the code uses), so starting from rotation 0 the
rotation stays in `[0, 360)` after any sequence of ticks; and outside the
SPINNING state a frame leaves the whole state unchanged (rotation is
frozen). -/
theorem tick_rotation_invariant (s : BoardState) (t : ℚ) :
    (0 ≤ s.rotation → s.rotation < 360 → 0 ≤ s.speed →
      0 ≤ (frameStep s t).rotation ∧ (frameStep s t).rotation < 360) ∧
    (s.gameState = GameState.SPINNING → s.lastTime ≠ 0 →
      (frameStep s t).rotation = jsMod (s.rotation + s.speed) 360) ∧
    (s.gameState = GameState.SPINNING → s.lastTime = 0 →
      (frameStep s t).rotation = s.rotation) ∧
    (s.gameState ≠ GameState.SPINNING → frameStep s t = s) ∧
    (∀ ts : List ℚ, 0 ≤ s.rotation → s.rotation < 360 → 0 ≤ s.speed →
      0 ≤ (ts.foldl frameStep s).rotation ∧
      (ts.foldl frameStep s).rotation < 360) := by
  have key : ∀ (s : BoardState) (t : ℚ),
      0 ≤ s.rotation → s.rotation < 360 → 0 ≤ s.speed →
      0 ≤ (frameStep s t).rotation ∧ (frameStep s t).rotation < 360 := by
    intro s t h0 h1 hsp
    rw [frameStep]
    by_cases hg : s.gameState = GameState.SPINNING
    · rw [if_pos hg, animateTick]
      by_cases hl : s.lastTime ≠ 0
      · simp only [if_pos hl]
        exact ⟨jsMod_nonneg (by linarith) (by norm_num),
               jsMod_lt (by norm_num)⟩
      · simp only [if_neg hl]
        exact ⟨h0, h1⟩
    · rw [if_neg hg]
      exact ⟨h0, h1⟩
  refine ⟨key s t, ?_, ?_, ?_, ?_⟩
  · intro hg hl
    rw [frameStep, if_pos hg, animateTick]
    simp only [if_pos hl]
  · intro hg hl
    rw [frameStep, if_pos hg, animateTick]
    simp only [hl, ne_eq, not_true_eq_false, if_false]
  · intro hg
    rw [frameStep, if_neg hg]
  · intro ts
    induction ts generalizing s with
    | nil => intro h0 h1 hsp; exact ⟨h0, h1⟩
    | cons t0 rest ih =>
      intro h0 h1 hsp
      rw [List.foldl_cons]
      have hstep := key s t0 h0 h1 hsp
      have hsp2 : 0 ≤ (frameStep s t0).speed := by
        rw [frameStep]
        by_cases hg : s.gameState = GameState.SPINNING
        · rw [if_pos hg, animateTick]; exact hsp
        · rw [if_neg hg]; exact hsp
      exact ih (frameStep s t0) hstep.1 hstep.2 hsp2

/-- Witness for the amended claim C8 at a concrete spinning state: one
tick with an initialized timestamp advances rotation from 350 to
`(350 + 8) % 360 = 358` and stays in range. -/
theorem tick_rotation_invariant_witness :
    (0 ≤ (frameStep ⟨GameState.SPINNING, 350, 1, 8⟩ 2).rotation ∧
      (frameStep ⟨GameState.SPINNING, 350, 1, 8⟩ 2).rotation < 360) ∧
    (frameStep ⟨GameState.SPINNING, 350, 1, 8⟩ 2).rotation
      = jsMod (350 + 8) 360 := by
  have h := tick_rotation_invariant ⟨GameState.SPINNING, 350, 1, 8⟩ 2
  exact ⟨h.1 (by norm_num) (by norm_num) (by norm_num),
         h.2.1 rfl (by norm_num)⟩

/-! ## Audio decoding (src/components/FactModal.tsx) -/

/-- One element of `new Int16Array(...)`: two bytes, little-endian,
reinterpreted as a signed 16-bit integer. -/
def toInt16 (lo hi : ℕ) : ℤ :=
  let u := lo % 256 + 256 * (hi % 256)
  if u < 32768 then (u : ℤ) else (u : ℤ) - 65536

/-- The full `Int16Array` view of an even-length byte buffer. -/
def toInt16List : List ℕ → List ℤ
  | lo :: hi :: rest => toInt16 lo hi :: toInt16List rest
  | _ => []

/-- Discriminates the `Except` constructors: `false` means the
computation threw. -/
def exceptOk {ε α : Type} : Except ε α → Bool
  | .ok _ => true
  | .error _ => false

/-- `decodeAudioData` of FactModal.tsx, on the decoded byte sequence.
`new Int16Array(data.buffer)` throws a `RangeError` when the buffer's
byte length is not a multiple of 2 (the buffer created in `decode` has
exactly the decoded length); then
`ctx.createBuffer(numChannels, frameCount, sampleRate)` throws a
`NotSupportedError` when `frameCount = dataInt16.length / numChannels`
is 0 (the Web Audio spec requires a positive length); otherwise
`frameCount` frames are written per channel with
`channelData[i] = dataInt16[i * numChannels + channel] / 32768.0`. The
read index is in range whenever `numChannels` divides the word count
(always, for the mono calls the component makes); `getD _ 0` only
supplies an unreachable default. -/
def decodeAudioData (data : List ℕ) (numChannels : ℕ) :
    Except String (List (List ℚ)) :=
  if data.length % 2 ≠ 0 then
    .error "RangeError: byte length of Int16Array should be a multiple of 2"
  else if (toInt16List data).length / numChannels = 0 then
    .error "NotSupportedError: AudioBuffer frame count must be positive"
  else
    .ok ((List.range numChannels).map fun channel =>
      (List.range ((toInt16List data).length / numChannels)).map fun i =>
        (((toInt16List data).getD (i * numChannels + channel) 0 : ℤ) : ℚ)
          / 32768)

theorem toInt16_bounds (lo hi : ℕ) :
    -32768 ≤ toInt16 lo hi ∧ toInt16 lo hi ≤ 32767 := by
  rw [toInt16]
  have h1 : lo % 256 < 256 := Nat.mod_lt _ (by norm_num)
  have h2 : hi % 256 < 256 := Nat.mod_lt _ (by norm_num)
  by_cases h : lo % 256 + 256 * (hi % 256) < 32768
  · simp only [if_pos h]
    omega
  · simp only [if_neg h]
    omega

theorem toInt16List_length (data : List ℕ) :
    (toInt16List data).length = data.length / 2 := by
  induction data using toInt16List.induct with
  | case1 lo hi rest ih =>
    rw [toInt16List]
    simp only [List.length_cons]
    omega
  | case2 l h =>
    match l, h with
    | [], _ => simp [toInt16List]
    | [x], _ => simp [toInt16List]
    | lo :: hi :: rest, h => exact (h lo hi rest rfl).elim

theorem toInt16List_getD_bounds (data : List ℕ) (i : ℕ) :
    -32768 ≤ (toInt16List data).getD i 0 ∧
    (toInt16List data).getD i 0 ≤ 32767 := by
  induction data using toInt16List.induct generalizing i with
  | case1 lo hi rest ih =>
    rw [toInt16List]
    match i with
    | 0 => exact toInt16_bounds lo hi
    | n + 1 => exact ih n
  | case2 l h =>
    have hnil : toInt16List l = [] := by
      match l, h with
      | [], _ => rfl
      | [x], _ => rfl
      | lo :: hi :: rest, h => exact (h lo hi rest rfl).elim
    rw [hnil]
    constructor <;> norm_num [List.getD]

/-- Counterexample to claim C2 as stated: on a decoded byte sequence of
odd length (here a single byte), `new Int16Array(data.buffer)` throws a
RangeError; the trailing byte is not dropped silently and no sample list
is produced. -/
theorem decodeAudioData_odd_byte_throws :
    decodeAudioData [0] 1
      = .error "RangeError: byte length of Int16Array should be a multiple of 2" ∧
    exceptOk (decodeAudioData [0] 1) = false := by
  constructor <;> rfl

/-- Counterexample to claim C3 as stated: its quantifier includes the
empty byte sequence (decoded from the valid base64 string ""), whose
length is even, but there `ctx.createBuffer(1, 0, 24000)` throws a
`NotSupportedError` instead of producing a zero-frame channel. -/
theorem decodeAudioData_empty_throws :
    decodeAudioData [] 1
      = .error "NotSupportedError: AudioBuffer frame count must be positive" ∧
    exceptOk (decodeAudioData [] 1) = false :=
  ⟨rfl, rfl⟩

/-- Claim C3 (amended): for every nonempty even-length decoded byte
sequence, mono decoding at the component's fixed parameters produces
exactly one channel of `byteLength / 2` samples, sample `i` equals
`dataInt16[i] / 32768`, and every sample lies in `[-1, 1]`; the empty
sequence instead makes `createBuffer` throw. -/
theorem decodeAudioData_mono_spec (data : List ℕ)
    (heven : data.length % 2 = 0) (hne : data ≠ []) :
    exceptOk (decodeAudioData data 1) = true ∧
    (∀ chans, decodeAudioData data 1 = .ok chans →
      chans.length = 1 ∧
      ∀ chan, chans = [chan] →
        chan.length = data.length / 2 ∧
        (∀ i, i < data.length / 2 →
          chan.get? i
            = some (((toInt16List data).getD i 0 : ℚ) / 32768)) ∧
        (∀ v ∈ chan, -1 ≤ v ∧ v ≤ 1)) := by
  have hcond : ¬ data.length % 2 ≠ 0 := by omega
  have hpos : 0 < data.length := List.length_pos.mpr hne
  have hframe : ¬ ((toInt16List data).length / 1 = 0) := by
    rw [Nat.div_one, toInt16List_length]
    omega
  have hres : decodeAudioData data 1
      = .ok [(List.range ((toInt16List data).length / 1)).map fun i =>
          (((toInt16List data).getD (i * 1 + 0) 0 : ℤ) : ℚ) / 32768] := by
    rw [decodeAudioData, if_neg hcond, if_neg hframe]
    rfl
  constructor
  · rw [hres]; rfl
  · intro chans hchans
    rw [hres] at hchans
    injection hchans with hchans
    subst hchans
    refine ⟨rfl, ?_⟩
    intro chan hchan
    injection hchan with hchan
    subst hchan
    have hlen : (toInt16List data).length / 1 = data.length / 2 := by
      rw [Nat.div_one, toInt16List_length]
    refine ⟨by simp [hlen], ?_, ?_⟩
    · intro i hi
      rw [List.get?_map, List.get?_range (by omega : i < (toInt16List data).length / 1)]
      simp
    · intro v hv
      obtain ⟨i, _, hvi⟩ := List.mem_map.mp hv
      obtain ⟨hlow, hhigh⟩ := toInt16List_getD_bounds data (i * 1 + 0)
      have hlow2 : (-32768 : ℚ) ≤ ((toInt16List data).getD (i * 1 + 0) 0 : ℚ) := by
        exact_mod_cast hlow
      have hhigh2 : (((toInt16List data).getD (i * 1 + 0) 0 : ℤ) : ℚ) ≤ 32767 := by
        exact_mod_cast hhigh
      rw [← hvi]
      constructor
      · rw [le_div_iff₀ (by norm_num : (0:ℚ) < 32768)]
        linarith
      · rw [div_le_iff₀ (by norm_num : (0:ℚ) < 32768)]
        linarith

/-- Witness for claim C3 at the concrete two-byte input `0x00 0x80`
(the most negative 16-bit sample, decoding to exactly -1). -/
theorem decodeAudioData_mono_spec_witness :
    exceptOk (decodeAudioData [0, 128] 1) = true ∧
    (∀ v ∈ [((toInt16 0 128 : ℤ) : ℚ) / 32768], -1 ≤ v ∧ v ≤ 1) := by
  have h := decodeAudioData_mono_spec [0, 128] rfl (by decide)
  refine ⟨h.1, ?_⟩
  have h2 := (h.2 [[((toInt16 0 128 : ℤ) : ℚ) / 32768]] rfl).2
    [((toInt16 0 128 : ℤ) : ℚ) / 32768] rfl
  exact h2.2.2

/-! ## Playback state machine (src/components/FactModal.tsx) -/

/-- Failure-injection parameters for the opaque playback engine: whether
a fresh AudioContext starts suspended, and which engine operations throw
on this call. -/
structure EngineEnv where
  ctxStartsSuspended : Bool
  createCtxFails : Bool
  resumeFails : Bool
  startFails : Bool
  stopThrows : Bool
deriving DecidableEq

/-- The lazily created AudioContext held in `audioContextRef`. -/
structure AudioCtx where
  suspended : Bool
deriving DecidableEq

/-- The player-relevant state of the FactModal component.
`isPlaying` is the observable playing state; `sourceNode` is
`sourceNodeRef.current` (sessions numbered by creation order);
`active` is the set of sessions started and not yet stopped or finished;
`pendingEnded` is the set of started sessions whose registered `onended`
handler has not yet fired (it fires exactly once, on natural completion
or on stop, and is never detached by the component). -/
structure PlayerState where
  isPlaying : Bool
  ctx : Option AudioCtx
  sourceNode : Option ℕ
  active : List ℕ
  pendingEnded : List ℕ
  nextId : ℕ
deriving DecidableEq

/-- `sourceNodeRef.current.stop()`: the engine call may throw. -/
def engineStop (env : EngineEnv) : Except String Unit :=
  if env.stopThrows then .error "InvalidStateError" else .ok ()

/-- `stopAudio` of FactModal.tsx: if a source node is held, halt it inside
`try { ... } catch (e) {}` (both branches continue identically — the empty
catch swallows any engine error), clear the ref, and in all cases set the
observable playing state to false. The halted session leaves the active
set; its `onended` stays pending and fires later. -/
def stopAudio (env : EngineEnv) (s : PlayerState) : PlayerState :=
  match s.sourceNode with
  | some id =>
    -- try { sourceNodeRef.current.stop() } catch (e) {}: whether the
    -- engine call returns or throws, its outcome is discarded and
    -- execution continues identically
    let _halt : Except String Unit := engineStop env
    { s with sourceNode := none, active := s.active.erase id,
             isPlaying := false }
  | none => { s with isPlaying := false }

/-- The errors the `try` block of `playAudio` can raise. -/
inductive PlayErr where
  | createCtx
  | resume
  | decodeErr (msg : String)
  | start
deriving DecidableEq

/-- The part of the `try` block of `playAudio` after the initial
`stopAudio()`: optimistically set the playing flag, lazily acquire the
AudioContext, resume it when suspended, decode the PCM buffer, then
create, connect and start a new source and record it in `sourceNodeRef`.
An error at any point aborts with the state reached so far (`onended` is
only pending for sources actually started). -/
def playAudioRest (env : EngineEnv) (data : List ℕ) (s1 : PlayerState) :
    Except (PlayErr × PlayerState) PlayerState :=
  let s2 := { s1 with isPlaying := true }
  let ctxRes : Except (PlayErr × PlayerState) (AudioCtx × PlayerState) :=
    match s2.ctx with
    | some c => .ok (c, s2)
    | none =>
      if env.createCtxFails then .error (.createCtx, s2)
      else
        let c : AudioCtx := { suspended := env.ctxStartsSuspended }
        .ok (c, { s2 with ctx := some c })
  match ctxRes with
  | .error e => .error e
  | .ok (c, s3) =>
    match (if c.suspended then
            (if env.resumeFails then
              Except.error (PlayErr.resume, s3)
            else
              Except.ok (({ suspended := false } : AudioCtx),
                { s3 with ctx := some { suspended := false } }))
           else Except.ok (c, s3)) with
    | .error e => .error e
    | .ok (_, s4) =>
      match decodeAudioData data 1 with
      | .error msg => .error (.decodeErr msg, s4)
      | .ok _buffer =>
        if env.startFails then .error (.start, s4)
        else
          let id := s4.nextId
          .ok { s4 with sourceNode := some id,
                        active := id :: s4.active,
                        pendingEnded := id :: s4.pendingEnded,
                        nextId := id + 1 }

/-- The whole `try` block of `playAudio`, with the byte sequence already
decoded from base64: `stopAudio()` runs first (stop-before-start), then
the rest of the block on the stopped state. -/
def playAudioTry (env : EngineEnv) (data : List ℕ) (s : PlayerState) :
    Except (PlayErr × PlayerState) PlayerState :=
  playAudioRest env data (stopAudio env s)

/-- `playAudio` as its caller observes it: `if (!audioBase64) return;`
then the `try` block, whose failure is caught
(`console.error(...); setIsPlaying(false)`) — so the result is always
`ok` and no exception escapes to the UI. -/
def playAudio (env : EngineEnv) (audio : Option (List ℕ))
    (s : PlayerState) : Except String PlayerState :=
  match audio with
  | none => .ok s
  | some data =>
    match playAudioTry env data s with
    | .ok s2 => .ok s2
    | .error (_, serr) => .ok { serr with isPlaying := false }

/-- The registered completion handler
`source.onended = () => setIsPlaying(false)` of session `sid` fires: it
unconditionally clears the observable playing flag, whichever session it
belongs to. Each handler fires at most once (on completion or stop). -/
def fireEnded (sid : ℕ) (s : PlayerState) : PlayerState :=
  if sid ∈ s.pendingEnded then
    { s with isPlaying := false,
             pendingEnded := s.pendingEnded.erase sid,
             active := s.active.erase sid }
  else s

/-- Component mount: nothing playing, no context, no source. -/
def initPlayer : PlayerState :=
  { isPlaying := false, ctx := none, sourceNode := none,
    active := [], pendingEnded := [], nextId := 0 }

/-- The data a suspended `playAudio` continuation carries: the engine
behavior for this call and the decoded byte payload. -/
structure PlayTask where
  env : EngineEnv
  data : List ℕ
deriving DecidableEq

/-- The player together with the suspended `playAudio` continuations.
`playAudio` is `async`: it runs synchronously only up to its first
`await` (the resume/decode sequence) and finishes later, when the event
loop runs the continuation — other events may run in between. -/
structure AsyncPlayer where
  core : PlayerState
  tasks : List (ℕ × PlayTask)
  nextTask : ℕ
deriving DecidableEq

/-- The synchronous prefix of `playAudio` (up to the first `await`): the
`stopAudio()` call, the optimistic `setIsPlaying(true)`, and the lazy
AudioContext creation (a synchronous constructor throw is caught
synchronously, resetting the flag and registering no continuation);
then the call suspends, registering its continuation. -/
def playAudioBegin (env : EngineEnv) (data : List ℕ) (a : AsyncPlayer) :
    AsyncPlayer :=
  match (stopAudio env a.core).ctx with
  | some _ =>
    { core := { stopAudio env a.core with isPlaying := true },
      tasks := (a.nextTask, ⟨env, data⟩) :: a.tasks,
      nextTask := a.nextTask + 1 }
  | none =>
    if env.createCtxFails then
      { core := { stopAudio env a.core with isPlaying := false },
        tasks := a.tasks, nextTask := a.nextTask }
    else
      { core :=
          { stopAudio env a.core with
              isPlaying := true
              ctx := some ⟨env.ctxStartsSuspended⟩ },
        tasks := (a.nextTask, ⟨env, data⟩) :: a.tasks,
        nextTask := a.nextTask + 1 }

/-- The tail of the continuation after a successful (or skipped) resume:
decode the buffer, then create, connect and start the source and record
it in `sourceNodeRef`; a decode or start error is caught by the
surrounding `catch`, resetting the playing flag. -/
def playAudioFinish (t : PlayTask) (s : PlayerState) : PlayerState :=
  match decodeAudioData t.data 1 with
  | .error _ => { s with isPlaying := false }
  | .ok _ =>
    if t.env.startFails then { s with isPlaying := false }
    else
      { s with sourceNode := some s.nextId,
               active := s.nextId :: s.active,
               pendingEnded := s.nextId :: s.pendingEnded,
               nextId := s.nextId + 1 }

/-- The whole `playAudio` continuation once the event loop resumes it:
`await ctx.resume()` when the context was suspended (a rejection is
caught, resetting the playing flag), then `playAudioFinish`. -/
def playContinue (t : PlayTask) (s : PlayerState) : PlayerState :=
  match s.ctx with
  | some c =>
    if c.suspended then
      if t.env.resumeFails then { s with isPlaying := false }
      else playAudioFinish t { s with ctx := some ⟨false⟩ }
    else playAudioFinish t s
  | none => playAudioFinish t s

/-- The event-loop events of the player. A `playCall` runs the
synchronous prefix of `playAudio`; its registered continuation runs
later as a `playCont` event, in whatever order the event loop schedules
it — another `playCall` or a `stop` can run in between. -/
inductive PlayerEvent where
  | playCall (env : EngineEnv) (audio : Option (List ℕ))
  | playCont (tid : ℕ)
  | stop (env : EngineEnv)
  | ended (sid : ℕ)

/-- One event of the single-threaded event loop. -/
def asyncStep (a : AsyncPlayer) : PlayerEvent → AsyncPlayer
  | .playCall env audio =>
    match audio with
    | none => a
    | some data => playAudioBegin env data a
  | .playCont tid =>
    match a.tasks.lookup tid with
    | some t =>
      { a with core := playContinue t a.core,
               tasks := a.tasks.filter (fun p => p.1 != tid) }
    | none => a
  | .stop env => { a with core := stopAudio env a.core }
  | .ended sid => { a with core := fireEnded sid a.core }

/-- Component mount with no pending calls. -/
def initAsync : AsyncPlayer := ⟨initPlayer, [], 0⟩

/-- Player well-formedness: every active session is the one held in
`sourceNodeRef`, the active list has no duplicates, and session ids ever
issued stay below the next fresh id. -/
def PlayerWF (s : PlayerState) : Prop :=
  (∀ id ∈ s.active, s.sourceNode = some id) ∧ s.active.Nodup ∧
  (∀ id ∈ s.active, id < s.nextId) ∧
  (∀ id ∈ s.pendingEnded, id < s.nextId)

theorem stopAudio_spec (env : EngineEnv) (s : PlayerState) :
    (stopAudio env s).isPlaying = false ∧
    (stopAudio env s).sourceNode = none ∧
    (stopAudio env s).ctx = s.ctx ∧
    (stopAudio env s).pendingEnded = s.pendingEnded ∧
    (stopAudio env s).nextId = s.nextId ∧
    (∀ id ∈ (stopAudio env s).active, id ∈ s.active) := by
  obtain ⟨p, c, sn, a, pe, n⟩ := s
  cases sn with
  | none => exact ⟨rfl, rfl, rfl, rfl, rfl, fun id h => h⟩
  | some id0 =>
    exact ⟨rfl, rfl, rfl, rfl, rfl, fun id h => List.mem_of_mem_erase h⟩

theorem active_nil_or_single {s : PlayerState} (h : PlayerWF s) :
    s.active = [] ∨ ∃ id, s.active = [id] ∧ s.sourceNode = some id := by
  obtain ⟨hsrc, hnd, _, _⟩ := h
  cases ha : s.active with
  | nil => exact Or.inl rfl
  | cons x xs =>
    right
    refine ⟨x, ?_, hsrc x (by rw [ha]; exact List.mem_cons_self x xs)⟩
    cases hxs : xs with
    | nil => rfl
    | cons y ys =>
      exfalso
      have h1 := hsrc x (by rw [ha]; simp)
      have h2 := hsrc y (by rw [ha, hxs]; simp)
      rw [h1] at h2
      have hxy : x = y := Option.some.inj h2
      rw [ha, hxs] at hnd
      simp [hxy] at hnd

theorem PlayerWF_active_len {s : PlayerState} (h : PlayerWF s) :
    s.active.length ≤ 1 := by
  rcases active_nil_or_single h with h1 | ⟨id, h1, _⟩ <;> simp [h1]

theorem stopAudio_active_nil (env : EngineEnv) {s : PlayerState}
    (h : PlayerWF s) : (stopAudio env s).active = [] := by
  rcases active_nil_or_single h with h1 | ⟨id, h1, h2⟩
  · obtain ⟨p, c, sn, a, pe, n⟩ := s
    simp only at h1
    cases sn with
    | none => simpa [stopAudio] using h1
    | some id0 => simp [stopAudio, h1]
  · obtain ⟨p, c, sn, a, pe, n⟩ := s
    simp only at h1 h2
    subst h2
    simp [stopAudio, h1]

/-- Claim C6: `stopAudio` is idempotent: from any state the observable
playing state ends up false, a second call in a row is a no-op, and an
engine error during the halt is swallowed (the outcome is identical
whether or not the engine `stop()` call throws). -/
theorem stopAudio_idempotent (env env2 : EngineEnv) (s : PlayerState) :
    (stopAudio env s).isPlaying = false ∧
    stopAudio env2 (stopAudio env s) = stopAudio env s ∧
    stopAudio { env with stopThrows := true } s
      = stopAudio { env with stopThrows := false } s := by
  obtain ⟨p, c, sn, a, pe, n⟩ := s
  refine ⟨?_, ?_, ?_⟩ <;> cases sn <;> simp [stopAudio]

theorem playAudioRest_spec (env : EngineEnv) (data : List ℕ)
    (u : PlayerState) :
    (∀ s2, playAudioRest env data u = .ok s2 →
      s2.isPlaying = true ∧
      s2.sourceNode = some u.nextId ∧
      s2.active = u.nextId :: u.active ∧
      s2.pendingEnded = u.nextId :: u.pendingEnded ∧
      s2.nextId = u.nextId + 1 ∧
      exceptOk (decodeAudioData data 1) = true) ∧
    (∀ e serr, playAudioRest env data u = .error (e, serr) →
      serr.sourceNode = u.sourceNode ∧
      serr.active = u.active ∧
      serr.pendingEnded = u.pendingEnded ∧
      serr.nextId = u.nextId) := by
  obtain ⟨p, c0, sn, a, pe, n⟩ := u
  obtain ⟨cs, cf, rf, sf, st⟩ := env
  rcases c0 with _ | ⟨⟨csusp⟩⟩ <;> try cases csusp
  all_goals cases cf <;> cases cs <;> cases rf <;> cases sf
  all_goals cases hdec : decodeAudioData data 1
  all_goals refine ⟨fun s2 hok => ?_, fun e serr herr => ?_⟩
  all_goals try (first
    | (simp [playAudioRest, hdec] at hok
       subst hok
       exact ⟨rfl, rfl, rfl, rfl, rfl, by simp [hdec, exceptOk]⟩)
    | (simp [playAudioRest, hdec] at hok))
  all_goals try (first
    | (simp [playAudioRest, hdec] at herr
       obtain ⟨h1, h2⟩ := herr
       subst h2
       exact ⟨rfl, rfl, rfl, rfl⟩)
    | (simp [playAudioRest, hdec] at herr))

theorem playAudioTry_spec (env : EngineEnv) (data : List ℕ)
    (s : PlayerState) :
    (∀ s2, playAudioTry env data s = .ok s2 →
      s2.isPlaying = true ∧
      s2.sourceNode = some s.nextId ∧
      s2.active = s.nextId :: (stopAudio env s).active ∧
      s2.pendingEnded = s.nextId :: s.pendingEnded ∧
      s2.nextId = s.nextId + 1 ∧
      exceptOk (decodeAudioData data 1) = true) ∧
    (∀ e serr, playAudioTry env data s = .error (e, serr) →
      serr.sourceNode = none ∧
      serr.active = (stopAudio env s).active ∧
      serr.pendingEnded = s.pendingEnded ∧
      serr.nextId = s.nextId) := by
  obtain ⟨hP, hSN, hC, hPE, hN, hA⟩ := stopAudio_spec env s
  obtain ⟨hok, herr⟩ := playAudioRest_spec env data (stopAudio env s)
  constructor
  · intro s2 h2
    obtain ⟨h3, h4, h5, h6, h7, h8⟩ := hok s2 h2
    rw [hN] at h4 h5 h7
    rw [hPE] at h6
    exact ⟨h3, h4, h5, by rw [h6, hN], h7, h8⟩
  · intro e serr h2
    obtain ⟨h3, h4, h5, h6⟩ := herr e serr h2
    exact ⟨by rw [h3, hSN], h4, by rw [h5, hPE], by rw [h6, hN]⟩

theorem playAudioTry_error_of_decode_error (env : EngineEnv)
    (data : List ℕ) (s : PlayerState) (msg : String)
    (h : decodeAudioData data 1 = .error msg) :
    exceptOk (playAudioTry env data s) = false := by
  cases hres : playAudioTry env data s with
  | error e => rfl
  | ok s2 =>
    have h2 := ((playAudioTry_spec env data s).1 s2 hres).2.2.2.2.2
    rw [h] at h2
    simp [exceptOk] at h2

theorem playAudio_always_ok (env : EngineEnv) (audio : Option (List ℕ))
    (s : PlayerState) : exceptOk (playAudio env audio s) = true := by
  cases audio with
  | none => rfl
  | some data =>
    cases h : playAudioTry env data s with
    | ok s2 => simp [playAudio, h, exceptOk]
    | error es =>
      obtain ⟨e, serr⟩ := es
      simp [playAudio, h, exceptOk]

theorem playAudio_catch (env : EngineEnv) (data : List ℕ)
    (s : PlayerState) (e : PlayErr) (serr : PlayerState)
    (h : playAudioTry env data s = .error (e, serr)) :
    playAudio env (some data) s = .ok { serr with isPlaying := false } := by
  simp [playAudio, h]

/-- Claim C5: every error raised in the `try` block of `playAudio`
(context acquisition, resume, decoding, source start) is caught locally:
the caller always receives a normal return (never an exception), and in
every error case the observable playing state is false afterwards. -/
theorem playAudio_catches_errors (env : EngineEnv)
    (audio : Option (List ℕ)) (s : PlayerState) :
    exceptOk (playAudio env audio s) = true ∧
    (∀ data e serr, audio = some data →
      playAudioTry env data s = .error (e, serr) →
      playAudio env audio s = .ok { serr with isPlaying := false } ∧
      ({ serr with isPlaying := false } : PlayerState).isPlaying = false) := by
  refine ⟨playAudio_always_ok env audio s, ?_⟩
  intro data e serr haudio htry
  subst haudio
  exact ⟨playAudio_catch env data s e serr htry, rfl⟩

/-- Witness for claim C5: with an engine whose `source.start()` throws,
`playAudio` on a concrete two-byte buffer from the initial state returns
normally with the playing flag false (after the optimistic `true`). -/
theorem playAudio_catches_errors_witness :
    playAudio ⟨false, false, false, true, false⟩ (some [0, 0]) initPlayer
      = .ok { isPlaying := false, ctx := some ⟨false⟩, sourceNode := none,
              active := [], pendingEnded := [], nextId := 0 } ∧
    exceptOk
      (playAudio ⟨false, false, false, true, false⟩ (some [0, 0]) initPlayer)
      = true := by
  have h := playAudio_catches_errors ⟨false, false, false, true, false⟩
    (some [0, 0]) initPlayer
  have htry : playAudioTry ⟨false, false, false, true, false⟩ [0, 0] initPlayer
      = .error (.start,
          { isPlaying := true, ctx := some ⟨false⟩, sourceNode := none,
            active := [], pendingEnded := [], nextId := 0 }) := rfl
  exact ⟨(h.2 [0, 0] PlayErr.start
    { isPlaying := true, ctx := some ⟨false⟩, sourceNode := none,
      active := [], pendingEnded := [], nextId := 0 } rfl htry).1, h.1⟩

/-- Claim C2 (amended): for every decoded byte sequence of odd length,
the `Int16Array` construction inside `decodeAudioData` throws a
`RangeError` — the trailing byte is not dropped silently. The error is
caught by the `try`/`catch` of `playAudio`, so it never propagates to the
calling UI code, and the observable playing state is false afterwards. -/
theorem decodeAudioData_odd_rangeError (env : EngineEnv) (s : PlayerState)
    (data : List ℕ) (hodd : data.length % 2 = 1) :
    decodeAudioData data 1
      = .error "RangeError: byte length of Int16Array should be a multiple of 2" ∧
    exceptOk (playAudio env (some data) s) = true ∧
    (∀ s2, playAudio env (some data) s = .ok s2 → s2.isPlaying = false) := by
  have hdec : decodeAudioData data 1
      = .error "RangeError: byte length of Int16Array should be a multiple of 2" := by
    rw [decodeAudioData, if_pos (by omega)]
  refine ⟨hdec, playAudio_always_ok env (some data) s, ?_⟩
  intro s2 h2
  cases htry : playAudioTry env data s with
  | ok s3 =>
    have h3 := playAudioTry_error_of_decode_error env data s _ hdec
    rw [htry] at h3
    simp [exceptOk] at h3
  | error es =>
    obtain ⟨e, serr⟩ := es
    have hcatch := playAudio_catch env data s e serr htry
    rw [hcatch] at h2
    injection h2 with h3
    subst h3
    rfl

/-- Witness for the amended claim C2 at the concrete odd input `[7]` with
a fully functional engine from the initial state. -/
theorem decodeAudioData_odd_rangeError_witness :
    decodeAudioData [7] 1
      = .error "RangeError: byte length of Int16Array should be a multiple of 2" ∧
    exceptOk
      (playAudio ⟨false, false, false, false, false⟩ (some [7]) initPlayer)
      = true ∧
    ({ isPlaying := false, ctx := some ⟨false⟩, sourceNode := none,
       active := [], pendingEnded := [], nextId := 0 } : PlayerState).isPlaying
      = false := by
  have h := decodeAudioData_odd_rangeError ⟨false, false, false, false, false⟩
    initPlayer [7] rfl
  exact ⟨h.1, h.2.1, h.2.2
    { isPlaying := false, ctx := some ⟨false⟩, sourceNode := none,
      active := [], pendingEnded := [], nextId := 0 } rfl⟩

theorem fireEnded_wf {s : PlayerState} (h : PlayerWF s) (sid : ℕ) :
    PlayerWF (fireEnded sid s) := by
  obtain ⟨hsrc, hnd, hlt, hpe⟩ := h
  rw [fireEnded]
  by_cases hmem : sid ∈ s.pendingEnded
  · rw [if_pos hmem]
    refine ⟨?_, hnd.erase _, ?_, ?_⟩
    · intro id hid
      exact hsrc id (List.mem_of_mem_erase hid)
    · intro id hid
      exact hlt id (List.mem_of_mem_erase hid)
    · intro id hid
      exact hpe id (List.mem_of_mem_erase hid)
  · rw [if_neg hmem]
    exact ⟨hsrc, hnd, hlt, hpe⟩

theorem stopAudio_wf (env : EngineEnv) {s : PlayerState} (h : PlayerWF s) :
    PlayerWF (stopAudio env s) := by
  have hnil := stopAudio_active_nil env h
  refine ⟨?_, ?_, ?_, ?_⟩
  · intro id hid
    rw [hnil] at hid
    exact absurd hid (List.not_mem_nil id)
  · rw [hnil]
    exact List.nodup_nil
  · intro id hid
    rw [hnil] at hid
    exact absurd hid (List.not_mem_nil id)
  · intro id hid
    rw [(stopAudio_spec env s).2.2.2.1] at hid
    rw [(stopAudio_spec env s).2.2.2.2.1]
    exact h.2.2.2 id hid

theorem initPlayer_wf : PlayerWF initPlayer :=
  ⟨fun id hid => absurd hid (List.not_mem_nil id), List.nodup_nil,
   fun id hid => absurd hid (List.not_mem_nil id),
   fun id hid => absurd hid (List.not_mem_nil id)⟩

theorem playAudioFinish_active (t : PlayTask) (s : PlayerState) :
    (playAudioFinish t s).active = s.active ∨
    (playAudioFinish t s).active = s.nextId :: s.active := by
  rw [playAudioFinish]
  cases hdec : decodeAudioData t.data 1 with
  | error msg => exact Or.inl rfl
  | ok buf =>
    by_cases hs : t.env.startFails = true
    · rw [if_pos hs]
      exact Or.inl rfl
    · rw [if_neg hs]
      exact Or.inr rfl

theorem playContinue_active (t : PlayTask) (s : PlayerState) :
    (playContinue t s).active = s.active ∨
    (playContinue t s).active = s.nextId :: s.active := by
  obtain ⟨⟨cs, cf, rf, sf, st⟩, d⟩ := t
  obtain ⟨p, c0, sn, a, pe, n⟩ := s
  rcases c0 with _ | ⟨⟨csusp⟩⟩
  · exact playAudioFinish_active ⟨⟨cs, cf, rf, sf, st⟩, d⟩
      ⟨p, none, sn, a, pe, n⟩
  · cases csusp
    · exact playAudioFinish_active ⟨⟨cs, cf, rf, sf, st⟩, d⟩
        ⟨p, some ⟨false⟩, sn, a, pe, n⟩
    · cases rf
      · exact playAudioFinish_active ⟨⟨cs, cf, false, sf, st⟩, d⟩
          ⟨p, some ⟨false⟩, sn, a, pe, n⟩
      · exact Or.inl rfl

/-- The synchronous prefix of any `playAudio` call leaves no session
active and no source in `sourceNodeRef`: the yet-unset new source cannot
have started, and the previously held one has been stopped — stop really
happens before this call starts anything. -/
theorem playAudioBegin_stopped (env : EngineEnv) (data : List ℕ)
    (a : AsyncPlayer) (h : PlayerWF a.core) :
    (playAudioBegin env data a).core.active = [] ∧
    (playAudioBegin env data a).core.sourceNode = none := by
  have hnil := stopAudio_active_nil env h
  have hsn := (stopAudio_spec env a.core).2.1
  rw [playAudioBegin]
  cases hctx : (stopAudio env a.core).ctx with
  | some c => exact ⟨hnil, hsn⟩
  | none =>
    by_cases hcf : env.createCtxFails = true
    · rw [if_pos hcf]
      exact ⟨hnil, hsn⟩
    · rw [if_neg hcf]
      exact ⟨hnil, hsn⟩

/-- Two interleaved `playAudio` calls on a functional engine: the first
call starts session 0 from its continuation, a second call then stops it
and starts session 1; session 0's `onended` is still pending. -/
def playTwiceAsync : AsyncPlayer :=
  [PlayerEvent.playCall ⟨false, false, false, false, false⟩ (some [0, 0]),
   PlayerEvent.playCont 0,
   PlayerEvent.playCall ⟨false, false, false, false, false⟩ (some [0, 0]),
   PlayerEvent.playCont 1].foldl asyncStep initAsync

/-- Counterexample to claim C4 as stated: after a second `playAudio`
supersedes the first session, the superseded session's completion handler
(fired asynchronously because the stop triggers `onended`, which was
never detached) still transitions the observable playing state from true
to false while the new session is still current. -/
theorem superseded_completion_flips_state :
    playTwiceAsync.core.isPlaying = true ∧
    playTwiceAsync.core.sourceNode = some 1 ∧
    (asyncStep playTwiceAsync (PlayerEvent.ended 0)).core.isPlaying = false ∧
    (asyncStep playTwiceAsync (PlayerEvent.ended 0)).core.sourceNode
      = some 1 :=
  ⟨rfl, rfl, rfl, rfl⟩

/-- Two `playAudio` calls whose synchronous prefixes both run before
either continuation: each prefix finds `sourceNodeRef` empty (the other
call has not started its source yet), so neither session is ever
stopped. -/
def overlapTrace : List PlayerEvent :=
  [PlayerEvent.playCall ⟨false, false, false, false, false⟩ (some [0, 0]),
   PlayerEvent.playCall ⟨false, false, false, false, false⟩ (some [0, 0]),
   PlayerEvent.playCont 0,
   PlayerEvent.playCont 1]

/-- Claim C4 (amended): the synchronous prefix of `playAudio` stops the
session held in `sourceNodeRef` before the call suspends, so a play whose
continuation runs with no interleaving leaves at most one active session.
But `playAudio` is async: when two calls interleave — both prefixes
before either continuation — both continuations start their sources and
two sessions are simultaneously active, neither ever stopped. Moreover
the superseded session's completion handler is never detached: whenever
the pending `onended` of any session — superseded ones included — fires,
it sets the observable playing state to false. -/
theorem play_supersedes (env : EngineEnv) (data : List ℕ) (a : AsyncPlayer)
    (h : PlayerWF a.core) :
    ((playAudioBegin env data a).core.active = [] ∧
     (playAudioBegin env data a).core.sourceNode = none) ∧
    (asyncStep (asyncStep a (PlayerEvent.playCall env (some data)))
        (PlayerEvent.playCont a.nextTask)).core.active.length ≤ 1 ∧
    ((overlapTrace.foldl asyncStep initAsync).core.active = [1, 0] ∧
     (overlapTrace.foldl asyncStep initAsync).core.sourceNode = some 1) ∧
    (∀ a2 old, old ∈ a2.core.pendingEnded →
      (asyncStep a2 (PlayerEvent.ended old)).core.isPlaying = false) := by
  obtain ⟨hnil, hsn⟩ := playAudioBegin_stopped env data a h
  refine ⟨⟨hnil, hsn⟩, ?_, ⟨rfl, rfl⟩, ?_⟩
  · show (asyncStep (playAudioBegin env data a)
      (PlayerEvent.playCont a.nextTask)).core.active.length ≤ 1
    cases hl : (playAudioBegin env data a).tasks.lookup a.nextTask with
    | none =>
      simp only [asyncStep, hl]
      rw [hnil]
      simp
    | some t =>
      simp only [asyncStep, hl]
      rcases playContinue_active t (playAudioBegin env data a).core
          with h1 | h1 <;>
        rw [h1, hnil] <;> simp
  · intro a2 old hmem
    simp [asyncStep, fireEnded, hmem]

/-- Witness for the amended claim C4: concrete instantiation at the
initial state with a functional engine and a two-byte buffer. -/
theorem play_supersedes_witness :
    (playAudioBegin ⟨false, false, false, false, false⟩ [0, 0]
      initAsync).core.active = [] ∧
    (asyncStep (asyncStep initAsync
        (PlayerEvent.playCall ⟨false, false, false, false, false⟩
          (some [0, 0])))
      (PlayerEvent.playCont initAsync.nextTask)).core.active.length ≤ 1 := by
  have h := play_supersedes ⟨false, false, false, false, false⟩ [0, 0]
    initAsync initPlayer_wf
  exact ⟨h.1.1, h.2.1⟩

/-! ## Scoreboard (src/App.tsx) -/

/-- The `Category` enum of `src/types.js` (its values, in order, are the
strings in `CATEGORIES`). -/
inductive Category where
  | HISTORY
  | SCIENCE
  | NATURE
  | SPORTS
  | ART
  | TECH
  | GEOGRAPHY
  | ENTERTAINMENT
deriving DecidableEq

/-- One scoreboard entry `{ correct, wrong }`. -/
structure CatScore where
  correct : ℕ
  wrong : ℕ
deriving DecidableEq

/-- `ScoreBoard = Record<Category, { correct: number; wrong: number }>`. -/
def ScoreBoard := Category → CatScore

/-- `handleQuizAnswer` of App.tsx: `if (!currentCategory) return;`, then a
spread update `{ ...prev, [currentCategory]: {...} }` replacing only the
current category's entry. -/
def handleQuizAnswer (currentCategory : Option Category) (isCorrect : Bool)
    (prev : ScoreBoard) : ScoreBoard :=
  match currentCategory with
  | none => prev
  | some cat => fun c =>
    if c = cat then
      { correct := (prev cat).correct + (if isCorrect then 1 else 0),
        wrong := (prev cat).wrong + (if isCorrect then 0 else 1) }
    else prev c

/-- Claim C9: recording a quiz answer updates only the current category's
entry, incrementing exactly one of its two counters by 1 and leaving
every other category's entry unchanged; with no current category set the
whole scoreboard is unchanged. -/
theorem handleQuizAnswer_frame (currentCategory : Option Category)
    (isCorrect : Bool) (prev : ScoreBoard) :
    (currentCategory = none →
      handleQuizAnswer currentCategory isCorrect prev = prev) ∧
    (∀ cat, currentCategory = some cat →
      (isCorrect = true →
        (handleQuizAnswer currentCategory isCorrect prev cat).correct
          = (prev cat).correct + 1 ∧
        (handleQuizAnswer currentCategory isCorrect prev cat).wrong
          = (prev cat).wrong) ∧
      (isCorrect = false →
        (handleQuizAnswer currentCategory isCorrect prev cat).correct
          = (prev cat).correct ∧
        (handleQuizAnswer currentCategory isCorrect prev cat).wrong
          = (prev cat).wrong + 1) ∧
      (∀ c, c ≠ cat →
        handleQuizAnswer currentCategory isCorrect prev c = prev c)) := by
  constructor
  · intro h
    subst h
    rfl
  · intro cat hcat
    subst hcat
    refine ⟨?_, ?_, ?_⟩
    · intro hic
      subst hic
      constructor <;> simp [handleQuizAnswer]
    · intro hic
      subst hic
      constructor <;> simp [handleQuizAnswer]
    · intro c hc
      simp [handleQuizAnswer, hc]

/-- Witness for claim C9: a correct answer for HISTORY on the fresh
scoreboard puts its correct counter at 1 and leaves SCIENCE untouched. -/
theorem handleQuizAnswer_frame_witness :
    (handleQuizAnswer (some Category.HISTORY) true
      (fun _ => (⟨0, 0⟩ : CatScore)) Category.HISTORY).correct = 0 + 1 ∧
    handleQuizAnswer (some Category.HISTORY) true
      (fun _ => (⟨0, 0⟩ : CatScore)) Category.SCIENCE = ⟨0, 0⟩ := by
  have h := (handleQuizAnswer_frame (some Category.HISTORY) true
    (fun _ => (⟨0, 0⟩ : CatScore))).2 Category.HISTORY rfl
  exact ⟨(h.1 rfl).1, h.2.2 Category.SCIENCE (by decide)⟩

/-! ## Quiz interaction of the modal (src/components/FactModal.tsx) -/

/-- The two values the `quizResult` state can hold besides `null`. -/
inductive QuizResult where
  | correct
  | wrong
deriving DecidableEq

/-- The quiz-relevant state of the FactModal component, plus the trace of
`onAnswerQuiz` calls it has made to App (newest first). -/
structure ModalState where
  isOpen : Bool
  selectedOption : Option String
  quizResult : Option QuizResult
  answered : List Bool
deriving DecidableEq

/-- `handleOptionClick` of FactModal.tsx: an early return once a result
is set (`// Prevent multi-click`); otherwise record the selection, set
the result by comparison with `quizData.correctAnswer`, and invoke
`onAnswerQuiz(isCorrect)`. -/
def handleOptionClick (correctAnswer opt : String) (s : ModalState) :
    ModalState :=
  if s.quizResult ≠ none then s
  else
    { s with
      selectedOption := some opt,
      quizResult := some (if opt = correctAnswer then .correct else .wrong),
      answered := (if opt = correctAnswer then true else false) :: s.answered }

/-- The modal's UI events. -/
inductive ModalEvent where
  | openModal
  | closeModal
  | optionClick (correctAnswer opt : String)

/-- One modal event. The `useEffect` on `isOpen` resets the selection and
the quiz result when the modal opens, and on close only stops audio
(selection and result untouched); option clicks can only happen while the
modal is open (the component renders nothing when closed). -/
def modalStep (s : ModalState) : ModalEvent → ModalState
  | .openModal =>
    { s with isOpen := true, selectedOption := none, quizResult := none }
  | .closeModal => { s with isOpen := false }
  | .optionClick ca opt => if s.isOpen then handleOptionClick ca opt s else s

/-- How many more `onAnswerQuiz` calls can still happen before the next
modal opening: one while no result is set, none afterwards. -/
def answerBudget (s : ModalState) : ℕ :=
  if s.quizResult = none then 1 else 0

theorem modalStep_answered_le {s : ModalState} {e : ModalEvent}
    (he : e ≠ ModalEvent.openModal) :
    (modalStep s e).answered.length + answerBudget (modalStep s e)
      ≤ s.answered.length + answerBudget s := by
  cases e with
  | openModal => exact absurd rfl he
  | closeModal => exact le_refl _
  | optionClick ca opt =>
    rw [modalStep]
    cases ho : s.isOpen with
    | false => simp
    | true =>
      simp only [if_pos rfl, if_true]
      rw [handleOptionClick]
      by_cases hq : s.quizResult = none
      · rw [if_neg (not_not_intro hq)]
        simp [answerBudget, hq]
      · rw [if_pos hq]

theorem modal_no_open_trace (es : List ModalEvent) (s : ModalState)
    (h : ∀ e ∈ es, e ≠ ModalEvent.openModal) :
    (es.foldl modalStep s).answered.length
      ≤ s.answered.length + answerBudget s := by
  have key : ∀ (es2 : List ModalEvent) (s2 : ModalState),
      (∀ e ∈ es2, e ≠ ModalEvent.openModal) →
      (es2.foldl modalStep s2).answered.length
          + answerBudget (es2.foldl modalStep s2)
        ≤ s2.answered.length + answerBudget s2 := by
    intro es2
    induction es2 with
    | nil => exact fun s2 _ => le_refl _
    | cons e rest ih =>
      intro s2 h2
      rw [List.foldl_cons]
      exact le_trans
        (ih (modalStep s2 e) (fun x hx => h2 x (List.mem_cons_of_mem _ hx)))
        (modalStep_answered_le (h2 e (List.mem_cons_self _ _)))
  have h3 := key es s h
  omega

/-- Claim C10: once a quiz result is set, every further option click is a
no-op (no state change, no score callback); closing the modal does not
reset the result, only reopening does; and along any event trace without
a modal opening, at most one answer in total is recorded (none if a
result is already set). -/
theorem quiz_answer_once (ca opt : String) (s : ModalState) :
    (s.quizResult ≠ none → handleOptionClick ca opt s = s) ∧
    (s.quizResult = none →
      (handleOptionClick ca opt s).quizResult ≠ none ∧
      (handleOptionClick ca opt s).answered
        = (if opt = ca then true else false) :: s.answered) ∧
    (modalStep s ModalEvent.closeModal).quizResult = s.quizResult ∧
    (modalStep s ModalEvent.openModal).quizResult = none ∧
    (∀ es : List ModalEvent, (∀ e ∈ es, e ≠ ModalEvent.openModal) →
      (es.foldl modalStep s).answered.length
        ≤ s.answered.length + answerBudget s) := by
  refine ⟨?_, ?_, rfl, rfl, fun es h => modal_no_open_trace es s h⟩
  · intro hq
    rw [handleOptionClick, if_pos hq]
  · intro hq
    rw [handleOptionClick, if_neg (not_not_intro hq)]
    exact ⟨by simp, rfl⟩

/-- Witness for claim C10: a first click on a wrong option from a fresh
open modal sets a result and records exactly one (wrong) answer. -/
theorem quiz_answer_once_witness :
    (handleOptionClick "a" "b" ⟨true, none, none, []⟩).quizResult ≠ none ∧
    (handleOptionClick "a" "b" ⟨true, none, none, []⟩).answered
      = [if ("b" : String) = "a" then true else false] := by
  have h := (quiz_answer_once "a" "b" ⟨true, none, none, []⟩).2.1 rfl
  exact ⟨h.1, h.2⟩
